import Mathlib

/-!
Verification development for the parameter-conversion layer of a Toggl CLI
(`toggl/cli/types.py`).  The Python source is shallowly embedded: strings are
`String`/`List Char`, Python sets are determinised as first-occurrence-ordered
duplicate-free lists (all proved facts are order-independent), `OrderedDict`
used as an ordered set becomes a duplicate-free `List String`, uncaught Python
exceptions (`IndexError`) become explicit error values, and the external
collaborators (`pendulum.parse`, the remote `objects.get` lookup) become
function parameters.
-/

namespace Toggl

/-- Python `\d` restricted to ASCII decimal digits (the inputs of interest are
ASCII; wider Unicode digit classes are outside the modelled scope). -/
def isDigitC (c : Char) : Bool := '0' ≤ c && c ≤ '9'

/-- Python `\s` (ASCII part): space, tab, newline, carriage return, vertical
tab, form feed. -/
def isPySpace (c : Char) : Bool :=
  c = ' ' || c = '\t' || c = '\n' || c = '\r' || c = '\x0b' || c = '\x0c'

/-- Decimal value of a digit list, as produced by Python `int` on a digit
string. -/
def digitsToNat (ds : List Char) : Nat :=
  ds.foldl (fun a c => 10 * a + (c.toNat - '0'.toNat)) 0

/-- Case-insensitive recognition of the duration unit letters d/h/m/s,
returning the lowercased letter (the regex runs under `re.IGNORECASE`). -/
def unitLower (c : Char) : Option Char :=
  if c = 'd' || c = 'D' then some 'd'
  else if c = 'h' || c = 'H' then some 'h'
  else if c = 'm' || c = 'M' then some 'm'
  else if c = 's' || c = 'S' then some 's'
  else none

/-- Seconds in one unit of each duration unit letter (`pendulum.duration`
keyword arguments `days`/`hours`/`minutes`/`seconds`). -/
def unitSeconds : Char → Nat
  | 'd' => 86400
  | 'h' => 3600
  | 'm' => 60
  | _ => 1

/-- One attempt of the regex `(?:(\d+)(d|h|m|s)(?!.*\2)\s?)+?` at the current
position (as `re.findall` tries it at each start offset): a maximal nonempty
digit run, a unit letter, the negative lookahead `(?!.*\2)` (the backreference
is case-insensitive and `.` stops at a newline), then an optional single
whitespace character is consumed.  Returns the parsed quantity, the lowercased
unit, and the remaining input.  Backtracking inside the digit run cannot
produce an alternative match (a shorter digit run is followed by a digit,
never by a unit letter), so this single attempt is faithful. -/
def matchOne (cs : List Char) : Option (Nat × Char × List Char) :=
  match cs.takeWhile isDigitC, cs.dropWhile isDigitC with
  | [], _ => none
  | _ :: _, [] => none
  | _ :: _, u :: rest2 =>
    match unitLower u with
    | none => none
    | some ul =>
      if (rest2.takeWhile (fun c => c ≠ '\n')).any (fun c => unitLower c == some ul) then
        none
      else
        match rest2 with
        | [] => some (digitsToNat (cs.takeWhile isDigitC), ul, [])
        | c :: t =>
          if isPySpace c then some (digitsToNat (cs.takeWhile isDigitC), ul, t)
          else some (digitsToNat (cs.takeWhile isDigitC), ul, c :: t)

/-- Fuelled scanner: each recursive call strictly shortens the input (a
successful match consumes at least its digit run and unit letter, a failed
attempt advances one character), so fuel equal to the input length is enough;
the zero-fuel branch is unreachable under that bound. -/
def scanDurF : Nat → List Char → List (Nat × Char)
  | 0, _ => []
  | _ + 1, [] => []
  | fuel + 1, c :: cs =>
    match matchOne (c :: cs) with
    | some (n, u, rest) => (n, u) :: scanDurF fuel rest
    | none => scanDurF fuel cs

/-- The scan performed by `re.findall(SYNTAX_REGEX, value, re.IGNORECASE)` in
`DateTimeDurationType.convert`: non-overlapping matches collected left to
right, advancing one character after a failed attempt. -/
def scanDur (cs : List Char) : List (Nat × Char) := scanDurF cs.length cs

/-- Total number of seconds of the summed `pendulum.duration` values built in
the fold of `DateTimeDurationType.convert` (a `pendulum` duration is a
`timedelta`, i.e. a plain amount of time; all regex quantities are
non-negative). -/
def durOfMatches (ms : List (Nat × Char)) : Nat :=
  ms.foldl (fun a p => a + p.1 * unitSeconds p.2) 0

/-- Day component of a `pendulum` duration given as total seconds. -/
def durDays (t : Nat) : Nat := t / 86400

/-- Hour component (after removing whole days). -/
def durHours (t : Nat) : Nat := t % 86400 / 3600

/-- Minute component (after removing whole hours). -/
def durMinutes (t : Nat) : Nat := t % 3600 / 60

/-- Second component (after removing whole minutes). -/
def durSeconds (t : Nat) : Nat := t % 60

/-- Python `str.strip()` on a character list (ASCII whitespace; the inputs of
interest are ASCII). -/
def stripChars (cs : List Char) : List Char :=
  ((cs.dropWhile isPySpace).reverse.dropWhile isPySpace).reverse

/-- Python `str.strip()`. -/
def pyStrip (s : String) : String := String.mk (stripChars s.data)

/-- Python `str.split(',')` on a character list: the split pieces, keeping
empty pieces (so the empty string yields one empty piece). -/
def splitCommaChars : List Char → List (List Char)
  | [] => [[]]
  | c :: cs =>
    if c = ',' then [] :: splitCommaChars cs
    else
      match splitCommaChars cs with
      | [] => [[c]]
      | t :: ts => (c :: t) :: ts

/-- Python `value.split(',')`. -/
def pySplitComma (s : String) : List String :=
  (splitCommaChars s.data).map String.mk

/-- Result of `DateTimeType.convert` / its subclass: either the duration built
by the unit folder (total seconds) or the datetime produced by the fallback
parse.  `τ` is the opaque type of `pendulum` datetimes. -/
inductive DurOrDT (τ : Type) where
  | dur (secs : Nat)
  | dt (d : τ)
deriving DecidableEq

/-- Embedding of `DateTimeType.convert` for a string argument.  `parse`
abstracts `pendulum.parse` together with the ambient configuration (timezone,
day-first/year-first flags; the `AttributeError` retry concerns only which
keyword arguments reach `pendulum` and is folded into `parse`): it returns
`none` when `pendulum.parse` raises `ValueError`.  `allowNow` is the
constructor argument `allow_now`.  The `value is None` early return concerns
an absent argument, not a string, and is outside this embedding. -/
def dtConvert (τ : Type) (parse : String → Option τ) (allowNow : Bool)
    (value : String) : Except String τ :=
  if value = "now" && !allowNow then
    Except.error "'now' support is not allowed!"
  else
    match parse value with
    | some d => Except.ok d
    | none => Except.error "Unknown datetime format!"

/-- Embedding of `DateTimeDurationType.convert`: run the regex scan; on zero
matches fall back to `DateTimeType.convert`, otherwise fold the matches into a
summed `pendulum.duration`. -/
def dtdConvert (τ : Type) (parse : String → Option τ) (allowNow : Bool)
    (value : String) : Except String (DurOrDT τ) :=
  match scanDur value.data with
  | [] => (dtConvert τ parse allowNow value).map DurOrDT.dt
  | ms => Except.ok (DurOrDT.dur (durOfMatches ms))

/-! Claim-side definitions (from the words of the claims, for comparison with
the source-derived scanner): an occurrence of the shorthand pattern
`<integer><unit>` is a maximal nonempty digit run immediately followed by a
unit letter. -/

/-- Occurrence of `<integer><unit>` starting at index `i` of `cs` (claim-side
reading, no lookahead): a maximal digit run starting at `i` followed by a unit
letter; yields the quantity and the lowercased unit. -/
def occAt (cs : List Char) (i : Nat) : Option (Nat × Char) :=
  let tail := cs.drop i
  let ds := tail.takeWhile isDigitC
  if ds.isEmpty then none
  else if 0 < i && isDigitC (cs.getD (i - 1) ' ') then none
  else
    match tail.dropWhile isDigitC with
    | [] => none
    | u :: _ => (unitLower u).map (fun ul => (digitsToNat ds, ul))

/-- Claim-side: the string contains at least one occurrence of the
`<integer><unit>` pattern. -/
def claimHasOcc (cs : List Char) : Bool :=
  (List.range cs.length).any (fun i => (occAt cs i).isSome)

/-- Claim-side: quantity of the last occurrence of unit `u` in the string, if
any. -/
def claimLastQty (cs : List Char) (u : Char) : Option Nat :=
  ((List.range cs.length).filterMap
    (fun i => (occAt cs i).bind (fun p => if p.2 = u then some p.1 else none))).getLast?

/-- Claim-side: total seconds of the duration the claim predicts — the sum,
over distinct unit letters occurring in the string, of the quantity of the
last occurrence of that unit. -/
def claimedDur (cs : List Char) : Nat :=
  (['d', 'h', 'm', 's'].map
    (fun u => ((claimLastQty cs u).getD 0) * unitSeconds u)).sum

/-! Set and modifier parsing. -/

/-- Append-if-absent on a duplicate-free list: `OrderedDict.__setitem__` with
a throwaway value (an existing key keeps its position; a new key is appended),
and also the determinisation of `set.add`. -/
def odInsert (l : List String) (k : String) : List String :=
  if k ∈ l then l else l ++ [k]

/-- Key removal: `del od[key]` wrapped in `try/except KeyError: pass`. -/
def odDelete (l : List String) (k : String) : List String :=
  l.filter (fun x => x ≠ k)

/-- First-occurrence-order deduplication: building an `OrderedDict` (or a
Python `set`, determinised) from a list of keys. -/
def odFromList (l : List String) : List String :=
  l.foldl odInsert []

/-- Embedding of `SetType.convert` on a present string: split on commas, strip
each piece, collect into a set.  The Python `set` is determinised as the
duplicate-free list of tokens in first-occurrence order; every fact proved
about it is order-independent. -/
def setParse (value : String) : List String :=
  odFromList ((pySplitComma value).map pyStrip)

/-- Embedding of `SetType.convert` including the `value is None` early
return. -/
def setConvert : Option String → Option (List String)
  | none => none
  | some v => some (setParse v)

/-- The `Modifier` class: the two Python sets `add_set` and `remove_set`. -/
structure PyModifier where
  add_set : Finset String
  remove_set : Finset String
deriving DecidableEq

/-- Result of `ModifierSetType.convert`: either the literal parsed set or a
`Modifier` (the polymorphic return of the source, made a tagged union). -/
inductive ModResult where
  | lit (s : List String)
  | mod (m : PyModifier)
deriving DecidableEq

/-- Failure modes of `ModifierSetType.convert`: `crash` is the uncaught
`IndexError` raised by `value[0]` on an empty token; `usage` is `self.fail`. -/
inductive ModErr where
  | crash
  | usage (msg : String)
deriving DecidableEq

/-- Embedding of `ModifierSetType.is_modifiers_value`, with the `IndexError`
on an empty token made explicit: `not any(v[0] != '+' and v[0] != '-' ...)`,
short-circuiting at the first token whose head is neither sign and crashing at
an empty token reached before that. -/
def classifyTokens : List String → Except ModErr Bool
  | [] => Except.ok true
  | t :: ts =>
    match t.data with
    | [] => Except.error ModErr.crash
    | c :: _ => if c ≠ '+' && c ≠ '-' then Except.ok false else classifyTokens ts

/-- The loop of `ModifierSetType.convert` that populates a `Modifier` from the
parsed tokens: `t[0]` selects the sign, `t[1:]` is added to `add_set` or
`remove_set`; the defensive `self.fail` branch for a signless token is kept
although the classification step makes it unreachable. -/
def buildModifier : List String → PyModifier → Except ModErr PyModifier
  | [], m => Except.ok m
  | t :: ts, m =>
    match t.data with
    | [] => Except.error ModErr.crash
    | c :: rest =>
      if c = '+' then
        buildModifier ts { m with add_set := insert (String.mk rest) m.add_set }
      else if c = '-' then
        buildModifier ts { m with remove_set := insert (String.mk rest) m.remove_set }
      else
        Except.error (ModErr.usage "Modifiers must start with either '+' or '-' character!")

/-- Embedding of `ModifierSetType.convert` on a string input: parse the set,
classify, and either return the literal set or build a `Modifier`. -/
def modifierConvert (value : String) : Except ModErr ModResult :=
  match classifyTokens (setParse value) with
  | Except.error e => Except.error e
  | Except.ok false => Except.ok (ModResult.lit (setParse value))
  | Except.ok true =>
    (buildModifier (setParse value) ⟨∅, ∅⟩).map ModResult.mod

/-! FieldsType: schema-validated field lists with a diff mode. -/

/-- Failure modes of `FieldsType.convert`: `usage` is `self.fail` with the
given message; `crash` is the uncaught `IndexError` raised by
`modifier_value[0]` on an empty token in diff mode. -/
inductive FErr where
  | usage (msg : String)
  | crash
deriving DecidableEq

/-- Loop body of `FieldsType._diff_mode` over the comma-split tokens, acting
on the `OrderedDict`-as-ordered-set `out` (a duplicate-free list): strip the
token, take its first character as the sign (crash on empty), require `+`/`-`,
compute the field as `modifier_value.replace(modifier, '')` — which removes
EVERY occurrence of the sign character, not only the leading one — validate it
against the schema, then append-if-absent or delete-if-present. -/
def diffGo (schema : List String) : List String → List String → Except FErr (List String)
  | out, [] => Except.ok out
  | out, t :: ts =>
    match (pyStrip t).data with
    | [] => Except.error FErr.crash
    | m :: _ =>
      if m ≠ '+' && m ≠ '-' then
        Except.error (FErr.usage "Field modifiers must start with either '+' or '-' character!")
      else
        let field := String.mk ((pyStrip t).data.filter (fun c => c ≠ m))
        if field ∈ schema then
          if m = '+' then diffGo schema (odInsert out field) ts
          else diffGo schema (odDelete out field) ts
        else
          Except.error (FErr.usage ("Unknown field '" ++ field ++ "'!"))

/-- Embedding of `FieldsType._diff_mode`: the working ordered set starts empty
when no command parameter is available (`param is None`), otherwise from the
comma-split, stripped, deduplicated default list (`param.default` is a
comma-separated string); then the token loop runs. -/
def diffMode (schema : List String) (dflt : Option String) (value : String) :
    Except FErr (List String) :=
  let out :=
    match dflt with
    | none => []
    | some d => odFromList ((pySplitComma d).map pyStrip)
  diffGo schema out (pySplitComma value)

/-- Literal-mode loop of `FieldsType.convert`: strip each token, fail fast
with the unknown-field usage error on the first token outside the schema,
otherwise collect the tokens in order (duplicates preserved). -/
def literalGo (schema : List String) : List String → Except FErr (List String)
  | [] => Except.ok []
  | t :: ts =>
    let f := pyStrip t
    if f ∈ schema then (literalGo schema ts).map (fun l => f :: l)
    else Except.error (FErr.usage ("Unknown field '" ++ f ++ "'!"))

/-- Embedding of `FieldsType.convert`: diff mode exactly when the raw string
contains a `-` or a `+` character, literal mode otherwise.  `schema` is the
key list of `resource_cls.__fields__`; `dflt` is `param.default` (with `none`
for `param is None`). -/
def fieldsConvert (schema : List String) (dflt : Option String) (value : String) :
    Except FErr (List String) :=
  if '-' ∈ value.data ∨ '+' ∈ value.data then diffMode schema dflt value
  else literalGo schema (pySplitComma value)

/-- Decidable equality for `Except` results (used only to evaluate concrete
outcomes in witnesses and counterexamples). -/
instance {ε α : Type} [DecidableEq ε] [DecidableEq α] : DecidableEq (Except ε α) := fun a b =>
  match a, b with
  | Except.ok x, Except.ok y =>
    if h : x = y then Decidable.isTrue (by rw [h])
    else Decidable.isFalse (fun hc => h (Except.ok.inj hc))
  | Except.error x, Except.error y =>
    if h : x = y then Decidable.isTrue (by rw [h])
    else Decidable.isFalse (fun hc => h (Except.error.inj hc))
  | Except.ok _, Except.error _ => Decidable.isFalse (fun hc => Except.noConfusion hc)
  | Except.error _, Except.ok _ => Decidable.isFalse (fun hc => Except.noConfusion hc)

/-- Bool test: the token is nonempty and starts with a sign character (the
classification property of `ModifierSetType.is_modifiers_value`, stated
claim-side). -/
def startsSignB (t : String) : Bool :=
  match t.data with
  | [] => false
  | c :: _ => c = '+' || c = '-'

/-- Restatement of the diff-mode loop following the words of the (amended)
spec, as a left fold over the comma-split tokens with an error-absorbing
accumulator; to be proved equal to the source-derived `diffGo`. -/
def specDiffStep (schema : List String) (acc : Except FErr (List String)) (tok : String) :
    Except FErr (List String) :=
  match acc with
  | Except.error e => Except.error e
  | Except.ok out =>
    match (pyStrip tok).data with
    | [] => Except.error FErr.crash
    | m :: _ =>
      if m = '+' || m = '-' then
        let field := String.mk ((pyStrip tok).data.filter (fun c => c ≠ m))
        if field ∈ schema then
          Except.ok (if m = '+' then odInsert out field else odDelete out field)
        else Except.error (FErr.usage ("Unknown field '" ++ field ++ "'!"))
      else
        Except.error (FErr.usage "Field modifiers must start with either '+' or '-' character!")

/-- Diff mode restated per the (amended) spec: fold the tokens over the
deduplicated default working set. -/
def specDiffMode (schema : List String) (dflt : Option String) (value : String) :
    Except FErr (List String) :=
  (pySplitComma value).foldl (specDiffStep schema)
    (Except.ok
      (match dflt with
       | none => []
       | some d => odFromList ((pySplitComma d).map pyStrip)))

/-- Literal mode restated per the spec's words: trim the comma-split tokens,
fail with the unknown-field usage error naming the FIRST token outside the
schema, otherwise return the trimmed tokens in order (duplicates kept); to be
proved equal to the source-derived literal path of `FieldsType.convert`. -/
def specLiteral (schema : List String) (value : String) : Except FErr (List String) :=
  match ((pySplitComma value).map pyStrip).find? (fun t => decide (t ∉ schema)) with
  | some t => Except.error (FErr.usage ("Unknown field '" ++ t ++ "'!"))
  | none => Except.ok ((pySplitComma value).map pyStrip)

/-! ResourceType: ordered multi-field entity resolution. -/

/-- A Python value flowing through `ResourceType.convert`: the raw token
string, possibly rebound to an `int` by a successful `int(value)` coercion. -/
inductive PyVal where
  | str (s : String)
  | int (n : Int)
deriving DecidableEq

/-- Outcome of the lookup collaborator `resource_cls.objects.get(...)`: `none`
when nothing matched (`obj is None`), `one e` for a unique match (entities are
identified by a natural number), `many` when
`TogglMultipleResultsException` was raised. -/
inductive LookupRes where
  | zero
  | one (e : Nat)
  | many
deriving DecidableEq

/-- Nonempty all-digit run parsed as a number (helper for `int()`). -/
def natDigits? (ds : List Char) : Option Nat :=
  if ds ≠ [] && ds.all isDigitC then some (digitsToNat ds) else none

/-- Python `int(s)` on a string: surrounding whitespace is stripped, one
optional sign is allowed, then a nonempty digit run; anything else raises
`ValueError` (`none`).  Digit-group underscores and non-ASCII digits are
outside the modelled scope. -/
def pyIntOfString (s : String) : Option Int :=
  match stripChars s.data with
  | '+' :: ds => (natDigits? ds).map (fun n => (n : Int))
  | '-' :: ds => (natDigits? ds).map (fun n => -(n : Int))
  | ds => (natDigits? ds).map (fun n => (n : Int))

/-- Python `int(value)` where `value` is the current (string or already
coerced integer) value. -/
def pyToInt : PyVal → Option Int
  | PyVal.str s => pyIntOfString s
  | PyVal.int n => some n

/-- Python `'{}'.format(value)` for the current value, as used in the failure
message of `ResourceType.convert`. -/
def pyFormat : PyVal → String
  | PyVal.str s => s
  | PyVal.int n => toString n

/-- The field loop of `ResourceType.convert`, instrumented with the list of
lookup calls actually issued.  For the `id` field the current value is first
coerced with `int(value)` — rebinding `value` on success, skipping the lookup
(`continue`) on failure.  A lookup answering with a unique entity returns
immediately; zero results or a multiple-results warning continue with the next
field.  Returns the issued calls, the resolved entity if any, and the final
value (used by the failure message). -/
def resourceLoop (look : String → PyVal → LookupRes) :
    List String → PyVal → List (String × PyVal) × Option Nat × PyVal
  | [], v => ([], none, v)
  | f :: fs, v =>
    if f = "id" then
      match pyToInt v with
      | none => resourceLoop look fs v
      | some n =>
        match look f (PyVal.int n) with
        | LookupRes.one e => ([(f, PyVal.int n)], some e, PyVal.int n)
        | _ =>
          let r := resourceLoop look fs (PyVal.int n)
          ((f, PyVal.int n) :: r.1, r.2.1, r.2.2)
    else
      match look f v with
      | LookupRes.one e => ([(f, v)], some e, v)
      | _ =>
        let r := resourceLoop look fs v
        ((f, v) :: r.1, r.2.1, r.2.2)

/-- Embedding of `ResourceType.convert`, instrumented with the lookup-call
trace.  `rname` is `resource_cls.get_name(verbose=True)`; the failure message
formats the FINAL value (which `int(value)` may have rebound), not necessarily
the raw token. -/
def resourceConvert (rname : String) (look : String → PyVal → LookupRes)
    (fields : List String) (value : String) :
    List (String × PyVal) × Except String Nat :=
  let r := resourceLoop look fields (PyVal.str value)
  (r.1,
    match r.2.1 with
    | some e => Except.ok e
    | none =>
      Except.error ("Unknown " ++ rname ++ " under specification '" ++ pyFormat r.2.2 ++ "'!"))

/-! Lemmas about the ordered-set operations. -/

theorem mem_odInsert {l : List String} {k x : String} :
    x ∈ odInsert l k ↔ x ∈ l ∨ x = k := by
  unfold odInsert
  by_cases h : k ∈ l
  · rw [if_pos h]
    constructor
    · exact Or.inl
    · rintro (hx | rfl)
      · exact hx
      · exact h
  · rw [if_neg h]
    simp

theorem odInsert_nodup {l : List String} {k : String} (h : l.Nodup) :
    (odInsert l k).Nodup := by
  unfold odInsert
  by_cases hk : k ∈ l
  · rwa [if_pos hk]
  · rw [if_neg hk]
    simp [List.nodup_append, h, List.disjoint_singleton, hk]

theorem mem_odDelete {l : List String} {k x : String} :
    x ∈ odDelete l k ↔ x ∈ l ∧ x ≠ k := by
  simp [odDelete]

theorem odDelete_nodup {l : List String} {k : String} (h : l.Nodup) :
    (odDelete l k).Nodup :=
  h.filter _

theorem mem_foldl_odInsert (l : List String) :
    ∀ (acc : List String) (x : String), x ∈ l.foldl odInsert acc ↔ x ∈ acc ∨ x ∈ l := by
  induction l with
  | nil => intro acc x; simp
  | cons a l ih =>
    intro acc x
    simp only [List.foldl_cons, ih, mem_odInsert, List.mem_cons]
    tauto

theorem foldl_odInsert_nodup (l : List String) :
    ∀ acc : List String, acc.Nodup → (l.foldl odInsert acc).Nodup := by
  induction l with
  | nil => intro acc h; simpa using h
  | cons a l ih =>
    intro acc h
    exact ih (odInsert acc a) (odInsert_nodup h)

theorem mem_odFromList {l : List String} {x : String} : x ∈ odFromList l ↔ x ∈ l := by
  simpa using mem_foldl_odInsert l [] x

theorem odFromList_nodup (l : List String) : (odFromList l).Nodup :=
  foldl_odInsert_nodup l [] List.nodup_nil

theorem mem_setParse {v x : String} :
    x ∈ setParse v ↔ x ∈ (pySplitComma v).map pyStrip := by
  unfold setParse
  exact mem_odFromList

theorem setParse_nodup (v : String) : (setParse v).Nodup :=
  odFromList_nodup _

/-! Claim C4: SetType.convert. -/

/-- C4 counterexample: the claim maps the empty string to "no value", but
`SetType.convert` applies the split-strip-collect pipeline to `""` and returns
the set containing the empty string, not the no-value result `none`. -/
theorem C4_counterexample :
    setConvert (some "") ≠ none ∧ setConvert (some "") = some [""] :=
  ⟨by decide, rfl⟩

/-- C4 (amended): absent input maps to no value; every present input —
including the empty string, which yields the one-element set containing `""` —
is mapped to the set of comma-split, whitespace-trimmed tokens with duplicates
collapsed; on `"a, b ,c"` this set is exactly the three tokens a, b, c. -/
theorem C4_set_semantics :
    setConvert none = none
    ∧ (∀ s, setConvert (some s) = some (setParse s))
    ∧ (∀ s x, x ∈ setParse s ↔ x ∈ (pySplitComma s).map pyStrip)
    ∧ (∀ s, (setParse s).Nodup)
    ∧ setParse "a, b ,c" = ["a", "b", "c"] :=
  ⟨rfl, fun _ => rfl, fun _ _ => mem_setParse, fun s => setParse_nodup s, rfl⟩

/-! Claim C9: FieldsType.convert literal mode. -/

theorem literalGo_eq_find (schema : List String) (ts : List String) :
    literalGo schema ts =
      match (ts.map pyStrip).find? (fun t => decide (t ∉ schema)) with
      | some t => Except.error (FErr.usage ("Unknown field '" ++ t ++ "'!"))
      | none => Except.ok (ts.map pyStrip) := by
  induction ts with
  | nil => rfl
  | cons t ts ih =>
    simp only [literalGo, List.map_cons]
    by_cases h : pyStrip t ∈ schema
    · rw [if_pos h, List.find?_cons_of_neg _ (by simpa using h), ih]
      cases hf : (ts.map pyStrip).find? (fun t => decide (t ∉ schema)) with
      | none => rfl
      | some u => rfl
    · rw [if_neg h, List.find?_cons_of_pos _ (by simpa using h)]

/-- C9 (confirmed): with no sign character in the raw value, `convert` runs in
literal mode — comma-split, trim, fail fast with the unknown-field usage error
naming the first token outside the schema, otherwise return the trimmed tokens
in order with duplicates preserved — and the default field list is ignored
(the result does not depend on it). -/
theorem C9_literal_mode (schema : List String) (d1 d2 : Option String) (value : String)
    (h : ¬('-' ∈ value.data ∨ '+' ∈ value.data)) :
    fieldsConvert schema d1 value = specLiteral schema value
    ∧ fieldsConvert schema d1 value = fieldsConvert schema d2 value := by
  unfold fieldsConvert specLiteral
  rw [if_neg h, if_neg h]
  exact ⟨literalGo_eq_find schema (pySplitComma value), rfl⟩

/-- C9 witness: `"id, name"` under schema id/name parses literally to
`["id", "name"]` whatever the default is, and `"id,bogus"` fails fast naming
`bogus`. -/
theorem C9_witness :
    fieldsConvert ["id", "name"] (some "desc") "id, name" = Except.ok ["id", "name"]
    ∧ fieldsConvert ["id", "name"] none "id, name"
        = fieldsConvert ["id", "name"] (some "zzz") "id, name"
    ∧ fieldsConvert ["id", "name"] (some "desc") "id,bogus,name"
        = Except.error (FErr.usage "Unknown field 'bogus'!") :=
  ⟨((C9_literal_mode ["id", "name"] (some "desc") none "id, name" (by decide)).1).trans rfl,
   (C9_literal_mode ["id", "name"] none (some "zzz") "id, name" (by decide)).2,
   ((C9_literal_mode ["id", "name"] (some "desc") none "id,bogus,name" (by decide)).1).trans rfl⟩

/-! Lemmas about the diff-mode loop. -/

theorem diffGo_preserve (schema : List String) (d : String) (hns : d ∉ schema) :
    ∀ (ts out : List String), d ∈ out → ∀ L, diffGo schema out ts = Except.ok L → d ∈ L := by
  intro ts
  induction ts with
  | nil =>
    intro out hmem L h
    cases h
    exact hmem
  | cons t ts ih =>
    intro out hmem L h
    cases htd : (pyStrip t).data with
    | nil => simp [diffGo, htd] at h
    | cons m rest =>
      simp only [diffGo, htd] at h
      by_cases hm : m ≠ '+' && m ≠ '-'
      · rw [if_pos hm] at h
        cases h
      · rw [if_neg hm] at h
        set field := String.mk ((m :: rest).filter (fun c => c ≠ m)) with hfield
        by_cases hfs : field ∈ schema
        · rw [if_pos hfs] at h
          by_cases hp : m = '+'
          · rw [if_pos hp] at h
            exact ih (odInsert out field) (mem_odInsert.mpr (Or.inl hmem)) L h
          · rw [if_neg hp] at h
            refine ih (odDelete out field) (mem_odDelete.mpr ⟨hmem, ?_⟩) L h
            intro hdf
            exact hns (hdf ▸ hfs)
        · rw [if_neg hfs] at h
          cases h

theorem foldl_specDiffStep_error (schema : List String) (e : FErr) (ts : List String) :
    ts.foldl (specDiffStep schema) (Except.error e) = Except.error e := by
  induction ts with
  | nil => rfl
  | cons t ts ih => simpa [specDiffStep] using ih

theorem diffGo_eq_foldl (schema : List String) :
    ∀ (ts out : List String),
      diffGo schema out ts = ts.foldl (specDiffStep schema) (Except.ok out) := by
  intro ts
  induction ts with
  | nil => intro out; rfl
  | cons t ts ih =>
    intro out
    rw [List.foldl_cons]
    cases htd : (pyStrip t).data with
    | nil =>
      simp only [diffGo, specDiffStep, htd]
      rw [foldl_specDiffStep_error]
    | cons m rest =>
      simp only [diffGo, specDiffStep, htd]
      by_cases hm : m = '+' ∨ m = '-'
      · have hm1 : (m ≠ '+' && m ≠ '-') = false := by
          rcases hm with rfl | rfl <;> simp
        have hm2 : (m = '+' || m = '-') = true := by
          rcases hm with rfl | rfl <;> simp
        rw [hm1, hm2]
        simp only [Bool.false_eq_true, if_false, if_true]
        set field := String.mk ((m :: rest).filter (fun c => c ≠ m)) with hfield
        by_cases hfs : field ∈ schema
        · rw [if_pos hfs, if_pos hfs]
          by_cases hp : m = '+'
          · rw [if_pos hp, if_pos hp]
            exact ih (odInsert out field)
          · rw [if_neg hp, if_neg hp]
            exact ih (odDelete out field)
        · rw [if_neg hfs, if_neg hfs]
          rw [foldl_specDiffStep_error]
      · have hm1 : (m ≠ '+' && m ≠ '-') = true := by
          push_neg at hm
          simp [hm.1, hm.2]
        have hm2 : (m = '+' || m = '-') = false := by
          push_neg at hm
          simp [hm.1, hm.2]
        rw [hm1, hm2]
        simp only [Bool.false_eq_true, if_false, if_true]
        rw [foldl_specDiffStep_error]

theorem diffGo_nodup (schema : List String) :
    ∀ (ts out : List String), out.Nodup → ∀ L, diffGo schema out ts = Except.ok L → L.Nodup := by
  intro ts
  induction ts with
  | nil =>
    intro out hnd L h
    cases h
    exact hnd
  | cons t ts ih =>
    intro out hnd L h
    cases htd : (pyStrip t).data with
    | nil => simp [diffGo, htd] at h
    | cons m rest =>
      simp only [diffGo, htd] at h
      by_cases hm : m ≠ '+' && m ≠ '-'
      · rw [if_pos hm] at h
        cases h
      · rw [if_neg hm] at h
        set field := String.mk ((m :: rest).filter (fun c => c ≠ m)) with hfield
        by_cases hfs : field ∈ schema
        · rw [if_pos hfs] at h
          by_cases hp : m = '+'
          · rw [if_pos hp] at h
            exact ih (odInsert out field) (odInsert_nodup hnd) L h
          · rw [if_neg hp] at h
            exact ih (odDelete out field) (odDelete_nodup hnd) L h
        · rw [if_neg hfs] at h
          cases h

/-! Claim C2: FieldsType diff mode. -/

/-- C2 counterexample: the claim says the field name of a token is obtained by
stripping the leading sign, so `"-i-d"` would name the unknown field `i-d` and
fail; the code instead computes `modifier_value.replace(modifier, '')`, which
removes EVERY `-`, yielding the schema field `id`, and the conversion succeeds
(removing `id` from the default list). -/
theorem C2_counterexample :
    fieldsConvert ["id"] (some "id") "-i-d" = Except.ok []
    ∧ "i-d" ∉ ["id"] :=
  ⟨rfl, by decide⟩

/-- C2 (amended): in diff mode `convert` starts from the command's default
field list with order preserved and duplicates removed; each comma-split token
is trimmed; an EMPTY trimmed token raises an uncaught `IndexError` (not the
usage error); a nonempty token must start with `+` or `-` (otherwise the
conversion fails with the "field modifiers must start with + or -" usage
error); the field name is obtained by removing EVERY occurrence of the sign
character from the token (not just the leading sign) and must belong to the
entity's field schema (otherwise it fails with "unknown field"); a `+` token
appends the field to the working ordered set only if not already present
(never reordering), and a `-` token removes it if present (a no-op when
absent); the returned value is the final ordered, duplicate-free field list —
with schema id/name/desc and default `"id,name"`, input `"+desc"` yields
`[id,name,desc]` and `"-id,+desc"` yields `[name,desc]`.  Stated as: the
source-derived diff mode equals the spec-level fold `specDiffMode`, and every
successful result is duplicate-free. -/
theorem C2_diff_mode (schema : List String) (dflt : Option String) (value : String) :
    (('-' ∈ value.data ∨ '+' ∈ value.data) →
      fieldsConvert schema dflt value = specDiffMode schema dflt value)
    ∧ (∀ L, diffMode schema dflt value = Except.ok L → L.Nodup) := by
  constructor
  · intro h
    unfold fieldsConvert specDiffMode
    rw [if_pos h]
    unfold diffMode
    cases dflt with
    | none => exact diffGo_eq_foldl schema (pySplitComma value) []
    | some d => exact diffGo_eq_foldl schema (pySplitComma value) _
  · intro L h
    unfold diffMode at h
    cases dflt with
    | none => exact diffGo_nodup schema (pySplitComma value) [] List.nodup_nil L h
    | some d =>
      exact diffGo_nodup schema (pySplitComma value) _ (odFromList_nodup _) L h

/-- C2 witness: the claim's examples, evaluated through the theorem — with
schema id/name/desc and default `"id,name"`, `"+desc"` gives
`[id, name, desc]` and `"-id,+desc"` gives `[name, desc]`, which is
duplicate-free. -/
theorem C2_witness :
    fieldsConvert ["id", "name", "desc"] (some "id,name") "+desc"
      = Except.ok ["id", "name", "desc"]
    ∧ fieldsConvert ["id", "name", "desc"] (some "id,name") "-id,+desc"
      = Except.ok ["name", "desc"]
    ∧ (["name", "desc"] : List String).Nodup :=
  ⟨((C2_diff_mode ["id", "name", "desc"] (some "id,name") "+desc").1 (by decide)).trans rfl,
   ((C2_diff_mode ["id", "name", "desc"] (some "id,name") "-id,+desc").1 (by decide)).trans rfl,
   (C2_diff_mode ["id", "name", "desc"] (some "id,name") "-id,+desc").2 ["name", "desc"] rfl⟩

/-! Claim C10: diff mode never validates the default field list. -/

/-- C10 (confirmed): in diff mode the names taken from the default field list
are never validated against the schema — only the `+`/`-` tokens' fields are —
so a default name outside the schema survives into every successful result
(it cannot even be removed: a `-` token for it would fail schema validation
first). -/
theorem C10_defaults_unvalidated (schema : List String) (dflt value d : String)
    (hsign : '-' ∈ value.data ∨ '+' ∈ value.data)
    (hd : d ∈ odFromList ((pySplitComma dflt).map pyStrip))
    (hns : d ∉ schema) :
    ∀ L, fieldsConvert schema (some dflt) value = Except.ok L → d ∈ L := by
  intro L hL
  unfold fieldsConvert at hL
  rw [if_pos hsign] at hL
  unfold diffMode at hL
  exact diffGo_preserve schema d hns (pySplitComma value) _ hd L hL

/-- C10 witness: with schema id/name and default `"bogus,id"`, the diff input
`"+name"` succeeds with `[bogus, id, name]`, and the out-of-schema default
name `bogus` is still present. -/
theorem C10_witness :
    fieldsConvert ["id", "name"] (some "bogus,id") "+name"
      = Except.ok ["bogus", "id", "name"]
    ∧ "bogus" ∉ ["id", "name"]
    ∧ "bogus" ∈ ["bogus", "id", "name"] :=
  ⟨rfl, by decide,
   C10_defaults_unvalidated ["id", "name"] "bogus,id" "+name" "bogus"
     (by decide) (by decide) (by decide) ["bogus", "id", "name"] rfl⟩

/-! Lemmas about the modifier parser. -/

theorem classifyTokens_of_ne_nil (ts : List String) (h : ∀ t ∈ ts, t.data ≠ []) :
    classifyTokens ts = Except.ok (ts.all startsSignB) := by
  induction ts with
  | nil => rfl
  | cons t ts ih =>
    cases htd : t.data with
    | nil => exact absurd htd (h t (List.mem_cons_self t ts))
    | cons c cs =>
      have ht : startsSignB t = (c = '+' || c = '-') := by
        unfold startsSignB
        rw [htd]
      simp only [classifyTokens, htd, List.all_cons, ht]
      by_cases hc : c = '+' ∨ c = '-'
      · have h1 : (c ≠ '+' && c ≠ '-') = false := by
          rcases hc with rfl | rfl <;> simp
        have h2 : (c = '+' || c = '-') = true := by
          rcases hc with rfl | rfl <;> simp
        rw [h1, h2, if_neg (by simp)]
        simp only [Bool.true_and]
        exact ih (fun u hu => h u (List.mem_cons_of_mem t hu))
      · push_neg at hc
        have h1 : (c ≠ '+' && c ≠ '-') = true := by simp [hc.1, hc.2]
        have h2 : (c = '+' || c = '-') = false := by simp [hc.1, hc.2]
        rw [h1, h2, if_pos rfl]
        simp

theorem buildModifier_spec (ts : List String) :
    ∀ (m0 res : PyModifier), buildModifier ts m0 = Except.ok res →
    ∀ x : String,
      (x ∈ res.add_set ↔ x ∈ m0.add_set ∨ ∃ t ∈ ts, t.data = '+' :: x.data)
      ∧ (x ∈ res.remove_set ↔ x ∈ m0.remove_set ∨ ∃ t ∈ ts, t.data = '-' :: x.data) := by
  induction ts with
  | nil =>
    intro m0 res h x
    cases h
    simp
  | cons t ts ih =>
    intro m0 res h x
    cases htd : t.data with
    | nil => simp [buildModifier, htd] at h
    | cons c cs =>
      simp only [buildModifier, htd] at h
      have hone : ∀ d : Char, (∃ u ∈ t :: ts, u.data = d :: x.data) ↔
          ((d :: x.data = c :: cs) ∨ ∃ u ∈ ts, u.data = d :: x.data) := by
        intro d
        constructor
        · rintro ⟨u, hu, hud⟩
          rcases List.mem_cons.mp hu with rfl | hu
          · exact Or.inl (hud ▸ htd)
          · exact Or.inr ⟨u, hu, hud⟩
        · rintro (hd | ⟨u, hu, hud⟩)
          · exact ⟨t, List.mem_cons_self t ts, htd.trans hd.symm⟩
          · exact ⟨u, List.mem_cons_of_mem t hu, hud⟩
      by_cases hp : c = '+'
      · rw [if_pos hp] at h
        subst hp
        have hres := ih _ res h x
        constructor
        · rw [hres.1, hone '+']
          simp only [Finset.mem_insert, List.cons.injEq, true_and]
          constructor
          · rintro ((rfl | hm) | he)
            · exact Or.inr (Or.inl rfl)
            · exact Or.inl hm
            · exact Or.inr (Or.inr he)
          · rintro (hm | (hd | he))
            · exact Or.inl (Or.inr hm)
            · refine Or.inl (Or.inl ?_)
              exact String.ext hd
            · exact Or.inr he
        · rw [hres.2, hone '-']
          simp
      · rw [if_neg hp] at h
        by_cases hq : c = '-'
        · rw [if_pos hq] at h
          subst hq
          have hres := ih _ res h x
          constructor
          · rw [hres.1, hone '+']
            simp
          · rw [hres.2, hone '-']
            simp only [Finset.mem_insert, List.cons.injEq, true_and]
            constructor
            · rintro ((rfl | hm) | he)
              · exact Or.inr (Or.inl rfl)
              · exact Or.inl hm
              · exact Or.inr (Or.inr he)
            · rintro (hm | (hd | he))
              · exact Or.inl (Or.inr hm)
              · refine Or.inl (Or.inl ?_)
                exact String.ext hd
              · exact Or.inr he
        · rw [if_neg hq] at h
          cases h

theorem buildModifier_total (ts : List String) :
    ∀ m0 : PyModifier, (∀ t ∈ ts, ∃ c cs, t.data = c :: cs ∧ (c = '+' ∨ c = '-')) →
    ∃ res, buildModifier ts m0 = Except.ok res := by
  induction ts with
  | nil => intro m0 _; exact ⟨m0, rfl⟩
  | cons t ts ih =>
    intro m0 h
    obtain ⟨c, cs, htd, hc⟩ := h t (List.mem_cons_self t ts)
    have hrest : ∀ u ∈ ts, ∃ c cs, u.data = c :: cs ∧ (c = '+' ∨ c = '-') :=
      fun u hu => h u (List.mem_cons_of_mem t hu)
    rcases hc with rfl | rfl
    · obtain ⟨res, hres⟩ := ih { m0 with add_set := insert (String.mk cs) m0.add_set } hrest
      refine ⟨res, ?_⟩
      simp only [buildModifier, htd, if_pos rfl]
      exact hres
    · obtain ⟨res, hres⟩ := ih { m0 with remove_set := insert (String.mk cs) m0.remove_set } hrest
      refine ⟨res, ?_⟩
      simp only [buildModifier, htd]
      simpa using hres

theorem modifierConvert_mod_inv {value : String} {m : PyModifier}
    (h : modifierConvert value = Except.ok (ModResult.mod m)) :
    classifyTokens (setParse value) = Except.ok true
    ∧ buildModifier (setParse value) ⟨∅, ∅⟩ = Except.ok m := by
  unfold modifierConvert at h
  cases hc : classifyTokens (setParse value) with
  | error e => rw [hc] at h; cases h
  | ok b =>
    rw [hc] at h
    cases b with
    | false => cases h
    | true =>
      refine ⟨rfl, ?_⟩
      cases hb : buildModifier (setParse value) ⟨∅, ∅⟩ with
      | error e => rw [hb] at h; cases h
      | ok r =>
        rw [hb] at h
        cases h
        rfl

/-! Claim C3: ModifierSetType.convert classification. -/

/-- C3 counterexample: on the input `""` the parsed set is the one-element set
containing the empty token, which violates the sign rule, so the claim says
`convert` returns the literal set unchanged; the code instead raises an
uncaught `IndexError` when `is_modifiers_value` evaluates `value[0]` on the
empty token. -/
theorem C3_counterexample :
    modifierConvert "" = Except.error ModErr.crash
    ∧ setParse "" = [""]
    ∧ modifierConvert "" ≠ Except.ok (ModResult.lit [""]) :=
  ⟨rfl, rfl, by decide⟩

/-- C3 (amended): provided every token of the parsed set is nonempty,
`convert` returns a `Modifier` exactly when every token begins with `+` or
`-` — its additions (resp. removals) being precisely the sign-stripped `+`
(resp. `-`) tokens — and returns the literal trimmed token set unchanged as
soon as one token lacks a sign; an input yielding an empty token (such as
`""`) instead raises an `IndexError` in the classification. -/
theorem C3_classification (value : String) (h : ∀ t ∈ setParse value, t.data ≠ []) :
    ((setParse value).all startsSignB = true →
      ∃ m, modifierConvert value = Except.ok (ModResult.mod m)
        ∧ (∀ x, x ∈ m.add_set ↔ ("+" ++ x) ∈ setParse value)
        ∧ (∀ x, x ∈ m.remove_set ↔ ("-" ++ x) ∈ setParse value))
    ∧ ((setParse value).all startsSignB = false →
      modifierConvert value = Except.ok (ModResult.lit (setParse value))) := by
  have hcl := classifyTokens_of_ne_nil (setParse value) h
  constructor
  · intro hall
    have hsigned : ∀ t ∈ setParse value, ∃ c cs, t.data = c :: cs ∧ (c = '+' ∨ c = '-') := by
      intro t ht
      have hs := List.all_eq_true.mp hall t ht
      cases htd : t.data with
      | nil => exact absurd htd (h t ht)
      | cons c cs =>
        refine ⟨c, cs, rfl, ?_⟩
        unfold startsSignB at hs
        rw [htd] at hs
        simpa using hs
    obtain ⟨m, hm⟩ := buildModifier_total (setParse value) ⟨∅, ∅⟩ hsigned
    refine ⟨m, ?_, ?_, ?_⟩
    · unfold modifierConvert
      rw [hall] at hcl
      rw [hcl, hm]
      rfl
    · intro x
      rw [(buildModifier_spec (setParse value) ⟨∅, ∅⟩ m hm x).1]
      constructor
      · rintro (he | ⟨t, ht, htd⟩)
        · simp at he
        · have : t = "+" ++ x := String.ext (by simpa [String.data_append] using htd)
          exact this ▸ ht
      · intro hx
        exact Or.inr ⟨"+" ++ x, hx, by simp [String.data_append]⟩
    · intro x
      rw [(buildModifier_spec (setParse value) ⟨∅, ∅⟩ m hm x).2]
      constructor
      · rintro (he | ⟨t, ht, htd⟩)
        · simp at he
        · have : t = "-" ++ x := String.ext (by simpa [String.data_append] using htd)
          exact this ▸ ht
      · intro hx
        exact Or.inr ⟨"-" ++ x, hx, by simp [String.data_append]⟩
  · intro hall
    unfold modifierConvert
    rw [hall] at hcl
    rw [hcl]

/-- C3 witness: on `"+a,-b"` every token is nonempty and signed, so `convert`
yields the `Modifier` with additions `{a}` and removals `{b}`; on `"a,-b"` the
first token is signless and the literal set comes back unchanged (via the
theorem's literal branch). -/
theorem C3_witness :
    modifierConvert "+a,-b" = Except.ok (ModResult.mod ⟨{"a"}, {"b"}⟩)
    ∧ modifierConvert "a,-b" = Except.ok (ModResult.lit ["a", "-b"]) :=
  ⟨rfl, (C3_classification "a,-b" (by decide)).2 (by decide)⟩

/-! Claim C7: additions/removals disjointness. -/

/-- C7 counterexample: the claim asserts the additions and removals of every
produced `Modifier` are disjoint, but on `"+a,-a"` the token `a` is placed in
both sets (the two collections are populated independently). -/
theorem C7_counterexample :
    modifierConvert "+a,-a" = Except.ok (ModResult.mod ⟨{"a"}, {"a"}⟩)
    ∧ "a" ∈ ({"a"} : Finset String) ∧ "a" ∈ ({"a"} : Finset String) :=
  ⟨rfl, by decide, by decide⟩

/-- C7 (amended): for every input classified as a diff, a token belongs to
both the additions and the removals exactly when it is listed under both
signs in the input; the two sets are disjoint if and only if no token appears
with both signs (so for `"+a,-a"` the token `a` belongs to both). -/
theorem C7_disjoint_iff (value : String) (m : PyModifier)
    (h : modifierConvert value = Except.ok (ModResult.mod m)) :
    (∀ x : String, ¬(x ∈ m.add_set ∧ x ∈ m.remove_set)) ↔
      (∀ x : String, ¬(("+" ++ x) ∈ setParse value ∧ ("-" ++ x) ∈ setParse value)) := by
  obtain ⟨hcl, hbm⟩ := modifierConvert_mod_inv h
  have hA : ∀ x : String, x ∈ m.add_set ↔ ("+" ++ x) ∈ setParse value := by
    intro x
    rw [(buildModifier_spec (setParse value) ⟨∅, ∅⟩ m hbm x).1]
    constructor
    · rintro (he | ⟨t, ht, htd⟩)
      · simp at he
      · have : t = "+" ++ x := String.ext (by simpa [String.data_append] using htd)
        exact this ▸ ht
    · intro hx
      exact Or.inr ⟨"+" ++ x, hx, by simp [String.data_append]⟩
  have hB : ∀ x : String, x ∈ m.remove_set ↔ ("-" ++ x) ∈ setParse value := by
    intro x
    rw [(buildModifier_spec (setParse value) ⟨∅, ∅⟩ m hbm x).2]
    constructor
    · rintro (he | ⟨t, ht, htd⟩)
      · simp at he
      · have : t = "-" ++ x := String.ext (by simpa [String.data_append] using htd)
        exact this ▸ ht
    · intro hx
      exact Or.inr ⟨"-" ++ x, hx, by simp [String.data_append]⟩
  exact forall_congr' (fun x => not_congr (and_congr (hA x) (hB x)))

/-- C7 witness: on `"+a,-b"` no token is listed under both signs, so the
additions and removals of the produced `Modifier` are disjoint (their
intersection is empty). -/
theorem C7_witness :
    modifierConvert "+a,-b" = Except.ok (ModResult.mod ⟨{"a"}, {"b"}⟩)
    ∧ ({"a"} : Finset String) ∩ ({"b"} : Finset String) = ∅ := by
  refine ⟨rfl, ?_⟩
  have hd : ∀ x : String,
      ¬(x ∈ (⟨{"a"}, {"b"}⟩ : PyModifier).add_set
        ∧ x ∈ (⟨{"a"}, {"b"}⟩ : PyModifier).remove_set) := by
    refine (C7_disjoint_iff "+a,-b" ⟨{"a"}, {"b"}⟩ rfl).mpr ?_
    intro x hx
    obtain ⟨h1, h2⟩ := hx
    have h1l : ("+" ++ x) ∈ (["+a", "-b"] : List String) := h1
    have h2l : ("-" ++ x) ∈ (["+a", "-b"] : List String) := h2
    rcases List.mem_cons.mp h1l with he | he
    · have hx1 : x = "a" := by
        have hq := congrArg String.data he
        simp [String.data_append] at hq
        exact String.ext (by simpa using hq)
      subst hx1
      have hcontra : ("-a" : String) ∈ (["+a", "-b"] : List String) := h2l
      simp at hcontra
    · have hq := congrArg String.data (List.mem_singleton.mp he)
      simp [String.data_append] at hq
  refine Finset.eq_empty_iff_forall_not_mem.mpr ?_
  intro x hx
  exact hd x (Finset.mem_inter.mp hx)

/-! Lemmas about the entity-resolver loop. -/

theorem resourceLoop_short (look : String → PyVal → LookupRes) :
    ∀ (fields : List String) (v : PyVal),
      (∀ p ∈ (resourceLoop look fields v).1.dropLast, ∀ e, look p.1 p.2 ≠ LookupRes.one e)
      ∧ (∀ p ∈ (resourceLoop look fields v).1, ∀ e,
          look p.1 p.2 = LookupRes.one e → (resourceLoop look fields v).2.1 = some e) := by
  intro fields
  induction fields with
  | nil =>
    intro v
    constructor <;> intro p hp <;> simp [resourceLoop] at hp
  | cons f fs ih =>
    intro v
    by_cases hf : f = "id"
    · cases hn : pyToInt v with
      | none =>
        have heq : resourceLoop look (f :: fs) v = resourceLoop look fs v := by
          subst hf
          simp [resourceLoop, hn]
        rw [heq]
        exact ih v
      | some n =>
        cases hl : look f (PyVal.int n) with
        | one e =>
          have heq : resourceLoop look (f :: fs) v
              = ([(f, PyVal.int n)], some e, PyVal.int n) := by
            subst hf
            simp [resourceLoop, hn, hl]
          rw [heq]
          constructor
          · intro p hp
            simp at hp
          · intro p hp e0 h0
            have hpe : p = (f, PyVal.int n) := by simpa using hp
            rw [hpe] at h0
            rw [hl] at h0
            cases h0
            rfl
        | zero =>
          have heq : resourceLoop look (f :: fs) v
              = ((f, PyVal.int n) :: (resourceLoop look fs (PyVal.int n)).1,
                 (resourceLoop look fs (PyVal.int n)).2.1,
                 (resourceLoop look fs (PyVal.int n)).2.2) := by
            subst hf
            simp [resourceLoop, hn, hl]
          rw [heq]
          have hne : ∀ e, look f (PyVal.int n) ≠ LookupRes.one e := by
            intro e he
            rw [hl] at he
            cases he
          constructor
          · intro p hp e
            cases hcs : (resourceLoop look fs (PyVal.int n)).1 with
            | nil =>
              rw [hcs] at hp
              simp at hp
            | cons a l =>
              rw [hcs] at hp
              rw [List.dropLast_cons₂] at hp
              rcases List.mem_cons.mp hp with rfl | hp
              · exact hne e
              · exact (ih (PyVal.int n)).1 p (by rw [hcs]; exact hp) e
          · intro p hp e h0
            rcases List.mem_cons.mp hp with rfl | hp
            · exact absurd h0 (hne e)
            · exact (ih (PyVal.int n)).2 p hp e h0
        | many =>
          have heq : resourceLoop look (f :: fs) v
              = ((f, PyVal.int n) :: (resourceLoop look fs (PyVal.int n)).1,
                 (resourceLoop look fs (PyVal.int n)).2.1,
                 (resourceLoop look fs (PyVal.int n)).2.2) := by
            subst hf
            simp [resourceLoop, hn, hl]
          rw [heq]
          have hne : ∀ e, look f (PyVal.int n) ≠ LookupRes.one e := by
            intro e he
            rw [hl] at he
            cases he
          constructor
          · intro p hp e
            cases hcs : (resourceLoop look fs (PyVal.int n)).1 with
            | nil =>
              rw [hcs] at hp
              simp at hp
            | cons a l =>
              rw [hcs] at hp
              rw [List.dropLast_cons₂] at hp
              rcases List.mem_cons.mp hp with rfl | hp
              · exact hne e
              · exact (ih (PyVal.int n)).1 p (by rw [hcs]; exact hp) e
          · intro p hp e h0
            rcases List.mem_cons.mp hp with rfl | hp
            · exact absurd h0 (hne e)
            · exact (ih (PyVal.int n)).2 p hp e h0
    · cases hl : look f v with
      | one e =>
        have heq : resourceLoop look (f :: fs) v = ([(f, v)], some e, v) := by
          simp [resourceLoop, hf, hl]
        rw [heq]
        constructor
        · intro p hp
          simp at hp
        · intro p hp e0 h0
          have hpe : p = (f, v) := by simpa using hp
          rw [hpe] at h0
          rw [hl] at h0
          cases h0
          rfl
      | zero =>
        have heq : resourceLoop look (f :: fs) v
            = ((f, v) :: (resourceLoop look fs v).1,
               (resourceLoop look fs v).2.1, (resourceLoop look fs v).2.2) := by
          simp [resourceLoop, hf, hl]
        rw [heq]
        have hne : ∀ e, look f v ≠ LookupRes.one e := by
          intro e he
          rw [hl] at he
          cases he
        constructor
        · intro p hp e
          cases hcs : (resourceLoop look fs v).1 with
          | nil =>
            rw [hcs] at hp
            simp at hp
          | cons a l =>
            rw [hcs] at hp
            rw [List.dropLast_cons₂] at hp
            rcases List.mem_cons.mp hp with rfl | hp
            · exact hne e
            · exact (ih v).1 p (by rw [hcs]; exact hp) e
        · intro p hp e h0
          rcases List.mem_cons.mp hp with rfl | hp
          · exact absurd h0 (hne e)
          · exact (ih v).2 p hp e h0
      | many =>
        have heq : resourceLoop look (f :: fs) v
            = ((f, v) :: (resourceLoop look fs v).1,
               (resourceLoop look fs v).2.1, (resourceLoop look fs v).2.2) := by
          simp [resourceLoop, hf, hl]
        rw [heq]
        have hne : ∀ e, look f v ≠ LookupRes.one e := by
          intro e he
          rw [hl] at he
          cases he
        constructor
        · intro p hp e
          cases hcs : (resourceLoop look fs v).1 with
          | nil =>
            rw [hcs] at hp
            simp at hp
          | cons a l =>
            rw [hcs] at hp
            rw [List.dropLast_cons₂] at hp
            rcases List.mem_cons.mp hp with rfl | hp
            · exact hne e
            · exact (ih v).1 p (by rw [hcs]; exact hp) e
        · intro p hp e h0
          rcases List.mem_cons.mp hp with rfl | hp
          · exact absurd h0 (hne e)
          · exact (ih v).2 p hp e h0

theorem resourceLoop_values (look : String → PyVal → LookupRes) :
    ∀ (fields : List String) (v : PyVal),
      (∀ p ∈ (resourceLoop look fields v).1,
        p.2 = v ∨ ∃ n, pyToInt v = some n ∧ p.2 = PyVal.int n)
      ∧ ((resourceLoop look fields v).2.2 = v
        ∨ ∃ n, pyToInt v = some n ∧ (resourceLoop look fields v).2.2 = PyVal.int n) := by
  intro fields
  induction fields with
  | nil =>
    intro v
    constructor
    · intro p hp
      simp [resourceLoop] at hp
    · exact Or.inl rfl
  | cons f fs ih =>
    intro v
    by_cases hf : f = "id"
    · cases hn : pyToInt v with
      | none =>
        have heq : resourceLoop look (f :: fs) v = resourceLoop look fs v := by
          subst hf
          simp [resourceLoop, hn]
        rw [heq]
        constructor
        · intro p hp
          rcases (ih v).1 p hp with hv | ⟨m, hm, hp2⟩
          · exact Or.inl hv
          · rw [hn] at hm
            cases hm
        · rcases (ih v).2 with hv | ⟨m, hm, hp2⟩
          · exact Or.inl hv
          · rw [hn] at hm
            cases hm
      | some n =>
        have hvn : ∀ w : PyVal,
            (w = PyVal.int n ∨ ∃ m, pyToInt (PyVal.int n) = some m ∧ w = PyVal.int m) →
            (w = v ∨ ∃ m, (some n : Option Int) = some m ∧ w = PyVal.int m) := by
          intro w hw
          rcases hw with rfl | ⟨m, hm, rfl⟩
          · exact Or.inr ⟨n, rfl, rfl⟩
          · cases hm
            exact Or.inr ⟨n, rfl, rfl⟩
        cases hl : look f (PyVal.int n) with
        | one e =>
          have heq : resourceLoop look (f :: fs) v
              = ([(f, PyVal.int n)], some e, PyVal.int n) := by
            subst hf
            simp [resourceLoop, hn, hl]
          rw [heq]
          constructor
          · intro p hp
            have hpe : p = (f, PyVal.int n) := by simpa using hp
            rw [hpe]
            exact Or.inr ⟨n, rfl, rfl⟩
          · exact Or.inr ⟨n, rfl, rfl⟩
        | zero =>
          have heq : resourceLoop look (f :: fs) v
              = ((f, PyVal.int n) :: (resourceLoop look fs (PyVal.int n)).1,
                 (resourceLoop look fs (PyVal.int n)).2.1,
                 (resourceLoop look fs (PyVal.int n)).2.2) := by
            subst hf
            simp [resourceLoop, hn, hl]
          rw [heq]
          constructor
          · intro p hp
            rcases List.mem_cons.mp hp with rfl | hp
            · exact Or.inr ⟨n, rfl, rfl⟩
            · exact hvn p.2 ((ih (PyVal.int n)).1 p hp)
          · exact hvn _ (ih (PyVal.int n)).2
        | many =>
          have heq : resourceLoop look (f :: fs) v
              = ((f, PyVal.int n) :: (resourceLoop look fs (PyVal.int n)).1,
                 (resourceLoop look fs (PyVal.int n)).2.1,
                 (resourceLoop look fs (PyVal.int n)).2.2) := by
            subst hf
            simp [resourceLoop, hn, hl]
          rw [heq]
          constructor
          · intro p hp
            rcases List.mem_cons.mp hp with rfl | hp
            · exact Or.inr ⟨n, rfl, rfl⟩
            · exact hvn p.2 ((ih (PyVal.int n)).1 p hp)
          · exact hvn _ (ih (PyVal.int n)).2
    · cases hl : look f v with
      | one e =>
        have heq : resourceLoop look (f :: fs) v = ([(f, v)], some e, v) := by
          simp [resourceLoop, hf, hl]
        rw [heq]
        constructor
        · intro p hp
          have hpe : p = (f, v) := by simpa using hp
          rw [hpe]
          exact Or.inl rfl
        · exact Or.inl rfl
      | zero =>
        have heq : resourceLoop look (f :: fs) v
            = ((f, v) :: (resourceLoop look fs v).1,
               (resourceLoop look fs v).2.1, (resourceLoop look fs v).2.2) := by
          simp [resourceLoop, hf, hl]
        rw [heq]
        constructor
        · intro p hp
          rcases List.mem_cons.mp hp with rfl | hp
          · exact Or.inl rfl
          · exact (ih v).1 p hp
        · exact (ih v).2
      | many =>
        have heq : resourceLoop look (f :: fs) v
            = ((f, v) :: (resourceLoop look fs v).1,
               (resourceLoop look fs v).2.1, (resourceLoop look fs v).2.2) := by
          simp [resourceLoop, hf, hl]
        rw [heq]
        constructor
        · intro p hp
          rcases List.mem_cons.mp hp with rfl | hp
          · exact Or.inl rfl
          · exact (ih v).1 p hp
        · exact (ih v).2

/-! Claim C5: which value the lookups receive and the failure message. -/

/-- C5 counterexample: with fields `(id, name)` and raw token `"042"`, the
`int(value)` coercion REBINDS `value` to `42`, so the subsequent name lookup
receives the integer `42` — not the original raw token `"042"` — and the
failure message names `'42'`, not the token exactly as supplied. -/
theorem C5_counterexample :
    resourceConvert "workspace" (fun _ _ => LookupRes.zero) ["id", "name"] "042"
      = ([("id", PyVal.int 42), ("name", PyVal.int 42)],
         Except.error "Unknown workspace under specification '42'!")
    ∧ PyVal.int 42 ≠ PyVal.str "042"
    ∧ "Unknown workspace under specification '42'!"
        ≠ "Unknown workspace under specification '042'!" :=
  ⟨rfl, by decide, by decide⟩

/-- C5 (amended): every issued lookup passes the CURRENT value — the original
raw token unless an earlier identifier-field coercion succeeded, in which case
the coerced integer; in particular when the token does not coerce to an
integer, every lookup (necessarily for non-identifier fields) passes the raw
token unchanged, and on exhaustion the failure message names the entity type
and the raw token exactly as supplied. -/
theorem C5_lookup_values (rname : String) (look : String → PyVal → LookupRes)
    (fields : List String) (value : String) :
    (∀ p ∈ (resourceConvert rname look fields value).1,
      p.2 = PyVal.str value ∨ ∃ n, pyIntOfString value = some n ∧ p.2 = PyVal.int n)
    ∧ (pyIntOfString value = none →
        (∀ p ∈ (resourceConvert rname look fields value).1, p.2 = PyVal.str value)
        ∧ (∀ msg, (resourceConvert rname look fields value).2 = Except.error msg →
            msg = "Unknown " ++ rname ++ " under specification '" ++ value ++ "'!")) := by
  have h := resourceLoop_values look fields (PyVal.str value)
  constructor
  · exact h.1
  · intro hnone
    constructor
    · intro p hp
      rcases h.1 p hp with hv | ⟨n, hn, _⟩
      · exact hv
      · rw [show pyToInt (PyVal.str value) = pyIntOfString value from rfl, hnone] at hn
        cases hn
    · intro msg hmsg
      have hfin : (resourceLoop look fields (PyVal.str value)).2.2 = PyVal.str value := by
        rcases h.2 with hv | ⟨n, hn, _⟩
        · exact hv
        · rw [show pyToInt (PyVal.str value) = pyIntOfString value from rfl, hnone] at hn
          cases hn
      have hmsg2 : (match (resourceLoop look fields (PyVal.str value)).2.1 with
          | some e => (Except.ok e : Except String Nat)
          | none => Except.error ("Unknown " ++ rname ++ " under specification '"
              ++ pyFormat (resourceLoop look fields (PyVal.str value)).2.2 ++ "'!"))
          = Except.error msg := hmsg
      cases hr : (resourceLoop look fields (PyVal.str value)).2.1 with
      | some e =>
        rw [hr] at hmsg2
        cases hmsg2
      | none =>
        rw [hr] at hmsg2
        have hinj := Except.error.inj hmsg2
        rw [← hinj, hfin]
        rfl

/-- C5 witness: token `"bob"` does not coerce, so with fields `(id, name)` and
a lookup finding nothing, only the name lookup is attempted, it receives the
raw string `"bob"`, and the failure names the resource type and `"bob"`. -/
theorem C5_witness :
    resourceConvert "workspace" (fun _ _ => LookupRes.zero) ["id", "name"] "bob"
      = ([("name", PyVal.str "bob")],
         Except.error "Unknown workspace under specification 'bob'!")
    ∧ (resourceConvert "workspace" (fun _ _ => LookupRes.zero) ["id", "name"] "bob").2
        = Except.error ("Unknown " ++ "workspace" ++ " under specification '" ++ "bob" ++ "'!") := by
  refine ⟨rfl, ?_⟩
  have h := (C5_lookup_values "workspace" (fun _ _ => LookupRes.zero) ["id", "name"] "bob").2 (by decide)
  have hm := h.2 "Unknown workspace under specification 'bob'!" rfl
  rw [← hm]
  rfl

/-! Claim C6: short-circuit on a unique match. -/

/-- C6 (confirmed): every lookup call except possibly the last received a
non-unique answer (so no lookup is ever issued after a unique match), and a
call answered with a unique entity makes `convert` return exactly that
entity. -/
theorem C6_short_circuit (rname : String) (look : String → PyVal → LookupRes)
    (fields : List String) (value : String) :
    (∀ p ∈ (resourceConvert rname look fields value).1.dropLast, ∀ e,
        look p.1 p.2 ≠ LookupRes.one e)
    ∧ (∀ p ∈ (resourceConvert rname look fields value).1, ∀ e,
        look p.1 p.2 = LookupRes.one e →
        (resourceConvert rname look fields value).2 = Except.ok e) := by
  have h := resourceLoop_short look fields (PyVal.str value)
  constructor
  · exact h.1
  · intro p hp e he
    have h2 := h.2 p hp e he
    show (match (resourceLoop look fields (PyVal.str value)).2.1 with
        | some e => (Except.ok e : Except String Nat)
        | none => Except.error ("Unknown " ++ rname ++ " under specification '"
            ++ pyFormat (resourceLoop look fields (PyVal.str value)).2.2 ++ "'!"))
        = Except.ok e
    rw [h2]

/-- C6 witness: fields `(id, name)`, token `"42"`, a lookup answering the id
query with a unique entity: the trace contains only the id call and the entity
is returned (the name lookup is never attempted). -/
theorem C6_witness :
    resourceConvert "workspace"
        (fun f _ => if f = "id" then LookupRes.one 7 else LookupRes.zero)
        ["id", "name"] "42"
      = ([("id", PyVal.int 42)], Except.ok 7)
    ∧ (resourceConvert "workspace"
        (fun f _ => if f = "id" then LookupRes.one 7 else LookupRes.zero)
        ["id", "name"] "42").2 = Except.ok 7 :=
  ⟨rfl,
   (C6_short_circuit "workspace"
      (fun f _ => if f = "id" then LookupRes.one 7 else LookupRes.zero)
      ["id", "name"] "42").2 ("id", PyVal.int 42) (by decide) 7 rfl⟩

/-! Lemmas about the duration scanner. -/

theorem matchOne_eq_some {cs rest : List Char} {n : Nat} {u : Char}
    (h : matchOne cs = some (n, u, rest)) :
    ∃ u0 rest2, cs.dropWhile isDigitC = u0 :: rest2
      ∧ unitLower u0 = some u
      ∧ (rest2.takeWhile (fun c => c ≠ '\n')).any (fun c => unitLower c == some u) = false
      ∧ (rest = rest2 ∨ rest = rest2.tail) := by
  unfold matchOne at h
  split at h
  · cases h
  · cases h
  · rename_i d ds u0 rest2 heq1 heq2
    split at h
    · cases h
    · rename_i ul hul
      split at h
      · cases h
      · rename_i hany
        split at h
        · simp only [Option.some.injEq, Prod.mk.injEq] at h
          obtain ⟨h1, h2, h3⟩ := h
          subst h2
          exact ⟨u0, [], heq2, hul, by simp, Or.inl h3.symm⟩
        · rename_i ch tl
          split at h
          · simp only [Option.some.injEq, Prod.mk.injEq] at h
            obtain ⟨h1, h2, h3⟩ := h
            subst h2
            exact ⟨u0, ch :: tl, heq2, hul, by simpa using hany, Or.inr h3.symm⟩
          · simp only [Option.some.injEq, Prod.mk.injEq] at h
            obtain ⟨h1, h2, h3⟩ := h
            subst h2
            exact ⟨u0, ch :: tl, heq2, hul, by simpa using hany, Or.inl h3.symm⟩

theorem matchOne_unit_mem {cs rest : List Char} {n : Nat} {u : Char}
    (h : matchOne cs = some (n, u, rest)) : ∃ c ∈ cs, unitLower c = some u := by
  obtain ⟨u0, rest2, hdw, hul, _, _⟩ := matchOne_eq_some h
  refine ⟨u0, ?_, hul⟩
  have hmem : u0 ∈ cs.dropWhile isDigitC := by
    rw [hdw]
    exact List.mem_cons_self u0 rest2
  exact (List.dropWhile_sublist (p := isDigitC)).subset hmem

theorem matchOne_rest_sublist {cs rest : List Char} {n : Nat} {u : Char}
    (h : matchOne cs = some (n, u, rest)) : rest.Sublist cs := by
  obtain ⟨u0, rest2, hdw, _, _, hr⟩ := matchOne_eq_some h
  have h2 : rest2.Sublist cs := by
    have hc : (u0 :: rest2).Sublist cs := by
      rw [← hdw]
      exact List.dropWhile_sublist (p := isDigitC)
    exact (List.sublist_cons_self u0 rest2).trans hc
  rcases hr with rfl | rfl
  · exact h2
  · exact (List.tail_sublist rest2).trans h2

/-- Helper: `takeWhile` is the identity when every element satisfies the
predicate. -/
theorem takeWhile_eq_self_of {p : Char → Bool} :
    ∀ l : List Char, (∀ c ∈ l, p c = true) → l.takeWhile p = l := by
  intro l
  induction l with
  | nil => intro _; rfl
  | cons c cs ih =>
    intro h
    rw [List.takeWhile_cons, h c (List.mem_cons_self c cs)]
    simp only [if_true]
    rw [ih (fun x hx => h x (List.mem_cons_of_mem c hx))]

theorem matchOne_no_unit_in_rest {cs rest : List Char} {n : Nat} {u : Char}
    (h : matchOne cs = some (n, u, rest)) (hnl : '\n' ∉ cs) :
    ∀ c ∈ rest, unitLower c ≠ some u := by
  obtain ⟨u0, rest2, hdw, _, hany, hr⟩ := matchOne_eq_some h
  have hsub2 : rest2.Sublist cs := by
    have hc : (u0 :: rest2).Sublist cs := by
      rw [← hdw]
      exact List.dropWhile_sublist (p := isDigitC)
    exact (List.sublist_cons_self u0 rest2).trans hc
  have hnl2 : ∀ c ∈ rest2, (c ≠ '\n' : Bool) = true := by
    intro c hc
    have : c ≠ '\n' := fun he => hnl (he ▸ hsub2.subset hc)
    simpa using this
  rw [takeWhile_eq_self_of rest2 hnl2] at hany
  have hall : ∀ c ∈ rest2, unitLower c ≠ some u := by
    intro c hc hcu
    have := List.any_eq_false.mp hany c hc
    rw [hcu] at this
    simp at this
  intro c hc
  refine hall c ?_
  rcases hr with rfl | rfl
  · exact hc
  · exact (List.tail_sublist rest2).subset hc

theorem scanDurF_unit_mem :
    ∀ (fuel : Nat) (cs : List Char), ∀ p ∈ scanDurF fuel cs, ∃ c ∈ cs, unitLower c = some p.2 := by
  intro fuel
  induction fuel with
  | zero =>
    intro cs p hp
    simp [scanDurF] at hp
  | succ fuel ih =>
    intro cs p hp
    cases cs with
    | nil => simp [scanDurF] at hp
    | cons c0 cs0 =>
      cases hm : matchOne (c0 :: cs0) with
      | some r =>
        obtain ⟨nn, uu, rest⟩ := r
        rw [show scanDurF (fuel + 1) (c0 :: cs0) = (nn, uu) :: scanDurF fuel rest by
          simp [scanDurF, hm]] at hp
        rcases List.mem_cons.mp hp with rfl | hp
        · exact matchOne_unit_mem hm
        · obtain ⟨c, hc, hcu⟩ := ih rest p hp
          exact ⟨c, (matchOne_rest_sublist hm).subset hc, hcu⟩
      | none =>
        rw [show scanDurF (fuel + 1) (c0 :: cs0) = scanDurF fuel cs0 by
          simp [scanDurF, hm]] at hp
        obtain ⟨c, hc, hcu⟩ := ih cs0 p hp
        exact ⟨c, List.mem_cons_of_mem c0 hc, hcu⟩

theorem scanDurF_units_nodup :
    ∀ (fuel : Nat) (cs : List Char), '\n' ∉ cs →
      ((scanDurF fuel cs).map Prod.snd).Nodup := by
  intro fuel
  induction fuel with
  | zero =>
    intro cs _
    simp [scanDurF]
  | succ fuel ih =>
    intro cs hnl
    cases cs with
    | nil => simp [scanDurF]
    | cons c0 cs0 =>
      cases hm : matchOne (c0 :: cs0) with
      | some r =>
        obtain ⟨nn, uu, rest⟩ := r
        rw [show scanDurF (fuel + 1) (c0 :: cs0) = (nn, uu) :: scanDurF fuel rest by
          simp [scanDurF, hm]]
        rw [List.map_cons, List.nodup_cons]
        constructor
        · intro hmem
          obtain ⟨p, hp, hpu⟩ := List.mem_map.mp hmem
          obtain ⟨c, hc, hcu⟩ := scanDurF_unit_mem fuel rest p hp
          rw [hpu] at hcu
          exact matchOne_no_unit_in_rest hm hnl c hc hcu
        · refine ih rest ?_
          intro hmem
          exact hnl ((matchOne_rest_sublist hm).subset hmem)
      | none =>
        rw [show scanDurF (fuel + 1) (c0 :: cs0) = scanDurF fuel cs0 by
          simp [scanDurF, hm]]
        refine ih cs0 ?_
        intro hmem
        exact hnl (List.mem_cons_of_mem c0 hmem)

/-! Claim C1: the unit-duration folder. -/

/-- C1 counterexample: `"1m 2h h"` contains occurrences of the
`<integer><unit>` pattern for both m (quantity 1) and h (last occurrence
quantity 2), so the claim predicts the duration 2h 1m (7260 s); but the
regex's negative lookahead inspects RAW characters — the trailing bare `h`
kills the `2h` match — so the code returns only 1 minute (60 s). -/
theorem C1_counterexample :
    claimHasOcc "1m 2h h".data = true
    ∧ claimedDur "1m 2h h".data = 7260
    ∧ dtdConvert Unit (fun _ => none) true "1m 2h h" = Except.ok (DurOrDT.dur 60)
    ∧ (60 : Nat) ≠ 7260 :=
  ⟨by decide, by decide, rfl, by decide⟩

/-- C1 (amended): whenever the code's pattern — `<integer><unit>` whose unit
letter does not recur later in the same line as a raw character — matches at
least once, `convert` returns the duration summing exactly the matched
quantities; on a newline-free string each unit letter contributes at most one
match (so per unit only one occurrence, the last surviving one, is counted);
in particular `"1h1m2h"` yields hours=2 minutes=1 and `"1d 2h 3m 4s"` yields
days=1 hours=2 minutes=3 seconds=4. -/
theorem C1_amended_fold (τ : Type) (parse : String → Option τ) (allowNow : Bool)
    (s : String) (h : scanDur s.data ≠ []) :
    dtdConvert τ parse allowNow s = Except.ok (DurOrDT.dur (durOfMatches (scanDur s.data)))
    ∧ ('\n' ∉ s.data → ((scanDur s.data).map Prod.snd).Nodup) := by
  constructor
  · unfold dtdConvert
    cases hm : scanDur s.data with
    | nil => exact absurd hm h
    | cons a l => rfl
  · intro hnl
    exact scanDurF_units_nodup s.data.length s.data hnl

/-- C1 witness: the two examples of the claim, evaluated through the amended
theorem — `"1h1m2h"` gives 7260 s (hours=2, minutes=1, last h occurrence
wins) and `"1d 2h 3m 4s"` gives 93784 s (days=1, hours=2, minutes=3,
seconds=4). -/
theorem C1_witness :
    dtdConvert Unit (fun _ => none) true "1h1m2h" = Except.ok (DurOrDT.dur 7260)
    ∧ durHours 7260 = 2 ∧ durMinutes 7260 = 1
    ∧ dtdConvert Unit (fun _ => none) true "1d 2h 3m 4s" = Except.ok (DurOrDT.dur 93784)
    ∧ durDays 93784 = 1 ∧ durHours 93784 = 2 ∧ durMinutes 93784 = 3 ∧ durSeconds 93784 = 4 :=
  ⟨((C1_amended_fold Unit (fun _ => none) true "1h1m2h" (by decide)).1).trans rfl,
   by decide, by decide,
   ((C1_amended_fold Unit (fun _ => none) true "1d 2h 3m 4s" (by decide)).1).trans rfl,
   by decide, by decide, by decide, by decide⟩

/-! Claim C8: duration match versus temporal fallback. -/

/-- C8 counterexample: `"2m m"` contains an occurrence of the
`<integer><unit>` pattern (the `2m`), yet the folder reports no match —
the lookahead sees the later bare `m` — and `convert` falls back to the
temporal parser, failing with the unknown-format error when that parse
fails. -/
theorem C8_counterexample :
    claimHasOcc "2m m".data = true
    ∧ scanDur "2m m".data = []
    ∧ dtdConvert Unit (fun _ => none) true "2m m" = Except.error "Unknown datetime format!" :=
  ⟨by decide, rfl, rfl⟩

/-- C8 (amended): the folder produces a duration exactly when the code's
pattern (with its no-later-same-unit-letter lookahead) matches at least once —
and then it never fails; with zero such matches `convert` falls back to the
temporal parser, and it fails with "Unknown datetime format!" precisely when
additionally the string is not a disallowed `now` literal and the
natural-language parse fails. -/
theorem C8_fallback (τ : Type) (parse : String → Option τ) (allowNow : Bool) (s : String) :
    (scanDur s.data ≠ [] → ∃ n, dtdConvert τ parse allowNow s = Except.ok (DurOrDT.dur n))
    ∧ (scanDur s.data = [] →
        dtdConvert τ parse allowNow s = (dtConvert τ parse allowNow s).map DurOrDT.dt)
    ∧ (dtdConvert τ parse allowNow s = Except.error "Unknown datetime format!" ↔
        scanDur s.data = [] ∧ (s = "now" && !allowNow) = false ∧ parse s = none) := by
  refine ⟨?_, ?_, ?_⟩
  · intro hne
    cases hm : scanDur s.data with
    | nil => exact absurd hm hne
    | cons a l =>
      refine ⟨durOfMatches (a :: l), ?_⟩
      unfold dtdConvert
      rw [hm]
  · intro hz
    unfold dtdConvert
    rw [hz]
  · constructor
    · intro herr
      cases hm : scanDur s.data with
      | cons a l =>
        unfold dtdConvert at herr
        rw [hm] at herr
        cases herr
      | nil =>
        unfold dtdConvert at herr
        rw [hm] at herr
        unfold dtConvert at herr
        refine ⟨rfl, ?_, ?_⟩
        · cases hb : (s = "now" && !allowNow) with
          | false => rfl
          | true =>
            rw [hb] at herr
            simp only [if_true, Except.map] at herr
            exact absurd (Except.error.inj herr) (by decide)
        · cases hb : (s = "now" && !allowNow) with
          | true =>
            rw [hb] at herr
            simp only [if_true, Except.map] at herr
            exact absurd (Except.error.inj herr) (by decide)
          | false =>
            rw [hb] at herr
            simp only [Bool.false_eq_true, if_false] at herr
            cases hp : parse s with
            | some d =>
              rw [hp] at herr
              simp [Except.map] at herr
            | none => rfl
    · rintro ⟨hz, hnow, hp⟩
      unfold dtdConvert
      rw [hz]
      unfold dtConvert
      rw [hnow, hp]
      rfl

/-- C8 witness: `"tomorrow"` matches no duration pattern, so `convert` falls
back to the temporal parse; when that parse also fails, the result is the
unknown-format error. -/
theorem C8_witness :
    scanDur "tomorrow".data = []
    ∧ dtdConvert Unit (fun _ => none) true "tomorrow"
        = (dtConvert Unit (fun _ => none) true "tomorrow").map DurOrDT.dt
    ∧ dtdConvert Unit (fun _ => none) true "tomorrow"
        = Except.error "Unknown datetime format!" :=
  ⟨rfl, (C8_fallback Unit (fun _ => none) true "tomorrow").2.1 rfl,
   (C8_fallback Unit (fun _ => none) true "tomorrow").2.2.mpr ⟨rfl, by decide, rfl⟩⟩

end Toggl
